import Mathlib

/-!
Shallow embedding of the Bitcoin core of the Digital Will repository:
the ordinal inscription encoder and decoder of src/backend/ordinals.js,
the time-locked transaction builder of the backend bitcoin module, and
the request validation of the POST /api/vault/create handler of
src/backend/server.js.  Byte strings are modelled as List Nat and the
script compiler and decompiler mirror the bitcoinjs script module that
the source calls (minimal push canonicalization included).
-/

set_option maxRecDepth 8000

namespace DigitalWill

/-- Decidable equality for Except results, used to evaluate the embedded
functions on concrete inputs. -/
instance exceptDecEq {ε α : Type} [DecidableEq ε] [DecidableEq α] :
    DecidableEq (Except ε α) := fun x y =>
  match x, y with
  | .ok a, .ok b =>
    if h : a = b then isTrue (by rw [h])
    else isFalse (by intro hc; injection hc; contradiction)
  | .error e, .error f =>
    if h : e = f then isTrue (by rw [h])
    else isFalse (by intro hc; injection hc; contradiction)
  | .ok _, .error _ => isFalse (fun hc => Except.noConfusion hc)
  | .error _, .ok _ => isFalse (fun hc => Except.noConfusion hc)

/-- Script chunk as handled by the bitcoinjs script compiler: either a raw
opcode number or a byte buffer to be emitted as a data push.  The opcode
values used by the source are OP_FALSE = 0, OP_IF = 99, OP_ENDIF = 104. -/
inductive ScriptChunk where
  | op (code : Nat)
  | buf (bytes : List Nat)
  deriving DecidableEq, Repr

/-- Minimal push canonicalization of the bitcoinjs script module: an empty
buffer stands for OP_0, a single byte 1..16 for OP_1..OP_16 (opcode 80 + b),
and the single byte 0x81 for OP_1NEGATE (opcode 79).  Both compile and
decompile apply it, so such buffers travel as plain opcodes. -/
def asMinimalOP : List Nat → Option Nat
  | [] => some 0
  | [b] => if 1 ≤ b ∧ b ≤ 16 then some (80 + b) else if b = 129 then some 79 else none
  | _ => none

/-- Pushdata encoding of a buffer: a direct length byte below 76, otherwise
OP_PUSHDATA1 (76), OP_PUSHDATA2 (77) or OP_PUSHDATA4 (78) followed by the
length in little endian bytes, then the data. -/
def pushEncode (b : List Nat) : List Nat :=
  if b.length < 76 then b.length :: b
  else if b.length ≤ 255 then 76 :: b.length :: b
  else if b.length ≤ 65535 then 77 :: b.length % 256 :: b.length / 256 :: b
  else 78 :: b.length % 256 :: b.length / 256 % 256 :: b.length / 65536 % 256 ::
    b.length / 16777216 % 256 :: b

/-- Byte encoding of one chunk: opcode chunks are a single byte, buffers are
canonicalized to an opcode when minimal, otherwise pushdata encoded. -/
def compileChunk : ScriptChunk → List Nat
  | .op c => [c]
  | .buf b =>
    match asMinimalOP b with
    | some c => [c]
    | none => pushEncode b

/-- Embedding of bitcoin.script.compile: concatenation of the encodings of
the chunks. -/
def compile : List ScriptChunk → List Nat
  | [] => []
  | c :: cs => compileChunk c ++ compile cs

/-- Chunk produced by the decompiler for pushed data: decompile applies the
minimal push canonicalization to every decoded push. -/
def canonChunk (b : List Nat) : ScriptChunk :=
  match asMinimalOP b with
  | some c => .op c
  | none => .buf b

/-- Canonical form of a chunk after a compile and decompile round trip. -/
def canonicalize : ScriptChunk → ScriptChunk
  | .op c => .op c
  | .buf b => canonChunk b

/-- Decoding of one push operation: given the push opcode (1..78) and the
remaining bytes, returns the pushed data and the rest, or none when the
header or the data is truncated, matching the null results of the bitcoinjs
pushdata decoder and decompiler. -/
def readPush (opcode : Nat) (rest : List Nat) : Option (List Nat × List Nat) :=
  if opcode < 76 then
    if rest.length < opcode then none else some (rest.take opcode, rest.drop opcode)
  else if opcode = 76 then
    match rest with
    | n :: r => if r.length < n then none else some (r.take n, r.drop n)
    | [] => none
  else if opcode = 77 then
    match rest with
    | b0 :: b1 :: r =>
      if r.length < b0 + 256 * b1 then none
      else some (r.take (b0 + 256 * b1), r.drop (b0 + 256 * b1))
    | _ => none
  else
    match rest with
    | b0 :: b1 :: b2 :: b3 :: r =>
      if r.length < b0 + 256 * b1 + 65536 * b2 + 16777216 * b3 then none
      else some (r.take (b0 + 256 * b1 + 65536 * b2 + 16777216 * b3),
        r.drop (b0 + 256 * b1 + 65536 * b2 + 16777216 * b3))
    | _ => none

/-- Fuelled worker for the decompiler; fuel equal to the byte length of the
script always suffices because every step consumes at least one byte. -/
def decompileFuel : Nat → List Nat → Option (List ScriptChunk)
  | _, [] => some []
  | 0, _ :: _ => none
  | f + 1, b :: rest =>
    if 1 ≤ b ∧ b ≤ 78 then
      (readPush b rest).bind fun dr =>
        (decompileFuel f dr.2).map fun cs => canonChunk dr.1 :: cs
    else
      (decompileFuel f rest).map fun cs => .op b :: cs

/-- Embedding of bitcoin.script.decompile: walks the byte string, decoding
opcodes 1..78 as data pushes (re-canonicalized minimally) and every other
byte as a plain opcode; returns none on a truncated push. -/
def decompile (bs : List Nat) : Option (List ScriptChunk) :=
  decompileFuel bs.length bs

/-- Chunks whose compilation survives a decompile unambiguously: opcode
chunks outside the push range 1..78 and buffers of representable length. -/
def validChunk : ScriptChunk → Bool
  | .op c => c = 0 || (79 ≤ c && c ≤ 255)
  | .buf b => b.length < 4294967296

/-- Byte string of the default content type of ordinals.js, the utf8 bytes
of text/plain;charset=utf-8. -/
def defaultContentType : List Nat :=
  [116, 101, 120, 116, 47, 112, 108, 97, 105, 110, 59, 99, 104, 97, 114, 115,
   101, 116, 61, 117, 116, 102, 45, 56]

/-- Byte string of the protocol tag ord pushed by the inscription builders. -/
def ordTag : List Nat := [111, 114, 100]

/-- Embedding of createOrdinalInscription of src/backend/ordinals.js: the
compiled script OP_FALSE OP_IF, push of the tag ord, push of the version
byte 1, push of the content type, push of the separator byte 0, one push of
the whole payload, OP_ENDIF.  The source default for the content type is
defaultContentType; it is passed explicitly here. -/
def createOrdinalInscription (data : List Nat) (contentType : List Nat) : List Nat :=
  compile [.op 0, .op 99, .buf ordTag, .buf [1], .buf contentType, .buf [0],
    .buf data, .op 104]

/-- Error taxonomy of parseOrdinalInscription: invalidScript for a script
that does not decompile or yields fewer than 7 operations, notOrdinal for a
missing OP_FALSE OP_IF marker pair, and typeError for the RangeError the
source raises when it calls toString with a utf8 argument on a decompiled
chunk that is a plain opcode number instead of a buffer. -/
inductive InscriptionError where
  | invalidScript
  | notOrdinal
  | typeError
  deriving DecidableEq, Repr

/-- Result record of parseOrdinalInscription: protocol, version, content
type and data fields extracted from the decompiled chunks. -/
structure Inscription where
  protocol : List Nat
  version : Option Nat
  contentType : List Nat
  data : List Nat
  deriving DecidableEq, Repr

/-- Reading a decompiled chunk as a byte string, as the source does with
toString given a utf8 argument: a buffer yields its bytes, while a plain
opcode number raises a RangeError. -/
def chunkToBytes : ScriptChunk → Except InscriptionError (List Nat)
  | .buf b => .ok b
  | .op _ => .error .typeError

/-- Reading the first byte of a decompiled chunk, as the source does with an
index access: a buffer yields its head when present, a plain opcode number
yields undefined, modelled as none. -/
def chunkFirstByte : ScriptChunk → Option Nat
  | .buf b => b.head?
  | .op _ => none

/-- Component extraction of parseOrdinalInscription: the protocol is chunk
2, the version the first byte of chunk 3, the content type chunk 4 and the
data chunk 6 alone (chunk 5, the separator, is skipped and chunks past
index 6 are ignored); reading a byte string from an opcode chunk raises,
in source order. -/
def extractInscription (decompiled : List ScriptChunk) : Except InscriptionError Inscription := do
  let protocol ← chunkToBytes (decompiled.getD 2 (.op 0))
  let version := chunkFirstByte (decompiled.getD 3 (.op 0))
  let contentType ← chunkToBytes (decompiled.getD 4 (.op 0))
  let data ← chunkToBytes (decompiled.getD 6 (.op 0))
  pure ⟨protocol, version, contentType, data⟩

/-- Embedding of parseOrdinalInscription of src/backend/ordinals.js: the
script is decompiled; a null result or fewer than 7 chunks raises Invalid
inscription script; a first chunk other than OP_FALSE or a second other
than OP_IF raises Not an Ordinal inscription; otherwise the components are
extracted.  The protocol tag itself is extracted but never compared with
ord. -/
def parseOrdinalInscription (script : List Nat) : Except InscriptionError Inscription :=
  match decompile script with
  | none => .error .invalidScript
  | some decompiled =>
    if decompiled.length < 7 then .error .invalidScript
    else if decompiled.get? 0 ≠ some (.op 0) ∨ decompiled.get? 1 ≠ some (.op 99) then
      .error .notOrdinal
    else extractInscription decompiled

/-- Embedding of estimateInscriptionSize of src/backend/ordinals.js: the
payload length plus a fixed overhead of one byte each for OP_FALSE, OP_IF
and OP_ENDIF, opcode plus data for the tag, the version, the content type
and the separator pushes, and three opcode bytes per 520 byte data chunk. -/
def estimateInscriptionSize (data : List Nat) (contentType : List Nat) : Nat :=
  let overhead :=
    1 + 1 + (1 + 3) + (1 + 1) + (1 + contentType.length) + (1 + 1) + 1 +
      ((data.length + 519) / 520) * 3
  data.length + overhead

/-- Fuelled worker for chunkData; fuel equal to the data length suffices
because every step consumes 520 elements of a nonempty list. -/
def chunkDataFuel : Nat → List Nat → List (List Nat)
  | _, [] => []
  | 0, _ :: _ => []
  | f + 1, a :: d => ((a :: d).take 520) :: chunkDataFuel f ((a :: d).drop 520)

/-- Embedding of chunkData of src/backend/ordinals.js: slices the data into
consecutive pieces of 520 bytes.  The chunkSize parameter of the source is
its default 520 at every call site and is fixed here. -/
def chunkData (data : List Nat) : List (List Nat) :=
  chunkDataFuel data.length data

/-- Embedding of createLargeOrdinalInscription of src/backend/ordinals.js:
the same envelope as createOrdinalInscription but with the payload split by
chunkData into one push per 520 byte piece. -/
def createLargeOrdinalInscription (data : List Nat) (contentType : List Nat) : List Nat :=
  compile ([ScriptChunk.op 0, .op 99, .buf ordTag, .buf [1], .buf contentType, .buf [0]]
    ++ (chunkData data).map ScriptChunk.buf ++ [.op 104])

/-- Validation error kinds of validateInscriptionData, standing for the two
message strings the source pushes: Data cannot be empty and Data too
large. -/
inductive ValidationError where
  | emptyData
  | dataTooLarge
  deriving DecidableEq, Repr

/-- Result record of validateInscriptionData. -/
structure ValidationResult where
  isValid : Bool
  errors : List ValidationError
  size : Nat
  estimatedInscriptionSize : Nat
  deriving DecidableEq, Repr

/-- Embedding of validateInscriptionData of src/backend/ordinals.js: flags
an empty payload and a payload above the 10240 byte ceiling; isValid holds
exactly when no error was flagged.  The estimate is computed with the
default content type, as in the source. -/
def validateInscriptionData (data : List Nat) : ValidationResult :=
  let errors :=
    (if data.length = 0 then [ValidationError.emptyData] else [])
      ++ (if data.length > 10240 then [ValidationError.dataTooLarge] else [])
  ⟨errors.isEmpty, errors, data.length, estimateInscriptionSize data defaultContentType⟩

/-- Spendable output record as fetched by getUTXOs: transaction id bytes,
output index and value in satoshis. -/
structure UTXO where
  txid : List Nat
  vout : Nat
  value : Nat
  deriving DecidableEq, Repr

/-- Transaction input added by the builder: previous output reference and
the sequence number.  The nonWitnessUtxo bytes fetched from the oracle are
signing context only and carry no information used by the claims. -/
structure TxInput where
  hash : List Nat
  index : Nat
  sequence : Nat
  deriving DecidableEq, Repr

/-- Destination of a transaction output: a raw script for the carrier
output, an address for the heir outputs. -/
inductive OutputDest where
  | script (s : List Nat)
  | addr (a : String)
  deriving DecidableEq, Repr

/-- Transaction output as added to the cached transaction by addOutput:
destination and value.  The value is an integer to keep the arithmetic of
the source exact. -/
structure TxOutput where
  dest : OutputDest
  value : Int
  deriving DecidableEq, Repr

/-- Structured result of buildTimeLockedTransaction: the locktime, the
reported fee, the input list, the output list of the cached transaction
that the source serializes (psbt.__CACHE.__TX, the origin of the returned
hex and txid), the value fields of the BIP-174 psbt.data.outputs metadata
records, and the reported counts.  The hex, txid, psbt, size, vsize and
weight fields of the source are serializations of the same inputs and
outputs and are not modelled separately. -/
structure BuiltTransaction where
  lockTime : Nat
  fee : Nat
  inputs : List TxInput
  outputs : List TxOutput
  outputsMeta : List (Option Int)
  numInputs : Nat
  numOutputs : Nat
  deriving DecidableEq, Repr

/-- Failure of the builder: the single insufficient funds throw, carrying
the amount named in its message, dust limit times heir count plus the
provisional 1000 satoshi fee. -/
inductive BuildError where
  | insufficientFunds (needed : Nat)
  deriving DecidableEq, Repr

/-- Dust limit constant of the builder. -/
def dustLimit : Nat := 546

/-- Total input value summed over the spendable outputs. -/
def totalInputValue (utxos : List UTXO) : Int :=
  (utxos.map fun u => (u.value : Int)).sum

/-- Per heir value computed by the builder: the floor of total input minus
the provisional 1000 satoshi fee, divided by the heir count. -/
def valuePerHeirOf (utxos : List UTXO) (heirAddresses : List String) : Int :=
  Int.fdiv (totalInputValue utxos - 1000) heirAddresses.length

/-- Embedding of buildTimeLockedTransaction of the backend bitcoin module.
One input per spendable output with sequence 0xfffffffe; the carrier output
first with value 0, then one output of valuePerHeir per heir, where
valuePerHeir is the floor of total input minus a provisional fee of 1000
satoshis divided by the heir count, guarded by the dust check; then a fee
of twice the estimated size, inputs times 148 plus outputs times 34 plus
10 (Math.ceil is the identity on this integer product).  The closing
assignment of valuePerHeir minus fee to the value of the output record at
lastOutputIndex targets psbt.data.outputs, the BIP-174 metadata array
whose records carry no value field, not the cached transaction that the
returned hex and psbt serialize: the store lands in the metadata record,
modelled by outputsMeta, and every heir output of the returned transaction
keeps valuePerHeir.  Both the size estimate and the reported output count
read psbt.data.outputs.length, the metadata list length, one record per
added output.  The division by the heir count is floored as by Math.floor;
the heir list is nonempty at every call site, which keeps the model clear
of the JavaScript division by zero semantics. -/
def buildTimeLockedTransaction (utxos : List UTXO) (heirAddresses : List String)
    (lockTime : Nat) (inscriptionScript : List Nat) :
    Except BuildError BuiltTransaction :=
  let inputs : List TxInput := utxos.map fun u => ⟨u.txid, u.vout, 4294967294⟩
  let valuePerHeir : Int := valuePerHeirOf utxos heirAddresses
  if valuePerHeir < (dustLimit : Int) then
    .error (.insufficientFunds (dustLimit * heirAddresses.length + 1000))
  else
    let outputs : List TxOutput :=
      ⟨.script inscriptionScript, 0⟩ :: heirAddresses.map fun a => ⟨.addr a, valuePerHeir⟩
    let outputsMeta0 : List (Option Int) := List.replicate outputs.length none
    let estimatedSize : Nat := utxos.length * 148 + outputsMeta0.length * 34 + 10
    let fee : Nat := estimatedSize * 2
    let outputsMeta : List (Option Int) :=
      outputsMeta0.set (outputsMeta0.length - 1) (some (valuePerHeir - fee))
    .ok ⟨lockTime, fee, inputs, outputs, outputsMeta, inputs.length, outputsMeta.length⟩

/-- Validation failures of the create vault handler, standing for the three
400 responses of src/backend/server.js: missing required fields, a heir
address list outside 1..3, and a locktime not in the future. -/
inductive CreateVaultError where
  | missingFields
  | invalidHeirAddresses
  | lockTimeNotInFuture
  deriving DecidableEq, Repr

/-- Embedding of the request validation of the POST /api/vault/create
handler of src/backend/server.js: a JavaScript falsiness test on the
required fields (an empty payload, a zero lockTime or an empty funding
address counts as missing), the 1 to 3 heir addresses check, and the
future check comparing the lockTime against the server clock now, the
current UNIX timestamp.  A result of none means validation passed. -/
def vaultCreateValidation (encryptedData : List Nat) (heirAddresses : List String)
    (lockTime : Nat) (fundingAddress : String) (now : Nat) : Option CreateVaultError :=
  if encryptedData.length = 0 ∨ lockTime = 0 ∨ fundingAddress = "" then
    some .missingFields
  else if heirAddresses.length = 0 ∨ heirAddresses.length > 3 then
    some .invalidHeirAddresses
  else if lockTime ≤ now then
    some .lockTimeNotInFuture
  else
    none

theorem decompileFuel_nil (f : Nat) : decompileFuel f [] = some [] := by
  cases f <;> rfl

theorem drop_some_length_le (n : Nat) (l data r : List Nat)
    (h : (if l.length < n then none else some (l.take n, l.drop n))
      = some (data, r)) : r.length ≤ l.length := by
  split_ifs at h
  simp only [Option.some.injEq, Prod.mk.injEq] at h
  rw [← h.2]
  simp [List.length_drop]

theorem readPush_length_le (opcode : Nat) (rest data r : List Nat)
    (h : readPush opcode rest = some (data, r)) : r.length ≤ rest.length := by
  unfold readPush at h
  by_cases h1 : opcode < 76
  · rw [if_pos h1] at h
    exact drop_some_length_le _ _ _ _ h
  rw [if_neg h1] at h
  by_cases h2 : opcode = 76
  · rw [if_pos h2] at h
    cases rest with
    | nil => exact absurd h (by simp)
    | cons n rt =>
      simp only at h
      have := drop_some_length_le _ _ _ _ h
      simp only [List.length_cons]
      omega
  rw [if_neg h2] at h
  by_cases h3 : opcode = 77
  · rw [if_pos h3] at h
    match rest with
    | [] => exact absurd h (by simp)
    | [b0] => exact absurd h (by simp)
    | b0 :: b1 :: rt =>
      simp only at h
      have := drop_some_length_le _ _ _ _ h
      simp only [List.length_cons]
      omega
  rw [if_neg h3] at h
  match rest with
  | [] => exact absurd h (by simp)
  | [b0] => exact absurd h (by simp)
  | [b0, b1] => exact absurd h (by simp)
  | [b0, b1, b2] => exact absurd h (by simp)
  | b0 :: b1 :: b2 :: b3 :: rt =>
    simp only at h
    have := drop_some_length_le _ _ _ _ h
    simp only [List.length_cons]
    omega

theorem decompileFuel_irrel (f1 : Nat) : ∀ (f2 : Nat) (bs : List Nat),
    bs.length ≤ f1 → bs.length ≤ f2 → decompileFuel f1 bs = decompileFuel f2 bs := by
  induction f1 with
  | zero =>
    intro f2 bs h1 _
    have : bs = [] := List.eq_nil_of_length_eq_zero (Nat.le_zero.mp h1)
    subst this
    simp [decompileFuel_nil]
  | succ g ih =>
    intro f2 bs h1 h2
    cases bs with
    | nil => simp [decompileFuel_nil]
    | cons b rest =>
      cases f2 with
      | zero => simp at h2
      | succ g2 =>
        simp only [decompileFuel]
        split_ifs with hb
        · cases hr : readPush b rest with
          | none => rfl
          | some p =>
            obtain ⟨data, r⟩ := p
            have hlen := readPush_length_le b rest data r hr
            have hrec : decompileFuel g r = decompileFuel g2 r := by
              apply ih
              · simp at h1; omega
              · simp at h2; omega
            simp only [Option.some_bind, hrec]
        · have hrec : decompileFuel g rest = decompileFuel g2 rest := by
            apply ih
            · simp at h1; omega
            · simp at h2; omega
          rw [hrec]

theorem decompile_nil : decompile [] = some [] := rfl

theorem decompile_cons_op (b : Nat) (T : List Nat) (hb : ¬(1 ≤ b ∧ b ≤ 78)) :
    decompile (b :: T) = (decompile T).map (ScriptChunk.op b :: ·) := by
  show decompileFuel (b :: T).length (b :: T) = _
  simp only [List.length_cons, decompileFuel, hb, if_false]
  rfl

theorem pushEncode_ne_nil (b : List Nat) : pushEncode b ≠ [] := by
  unfold pushEncode
  split_ifs <;> simp

theorem decompile_push (b T : List Nat) (hm : asMinimalOP b = none)
    (hlen : b.length < 4294967296) :
    decompile (pushEncode b ++ T) = (decompile T).map (ScriptChunk.buf b :: ·) := by
  have hb1 : 1 ≤ b.length := by
    rcases b with _ | ⟨x, t⟩
    · simp [asMinimalOP] at hm
    · simp
  have hcanon : canonChunk b = ScriptChunk.buf b := by simp [canonChunk, hm]
  have hlenappend : ¬ (b ++ T).length < b.length := by
    simp only [List.length_append]
    omega
  have hrec : ∀ g : Nat, T.length ≤ g →
      (decompileFuel g T).map (fun cs => canonChunk b :: cs)
        = (decompile T).map (ScriptChunk.buf b :: ·) := by
    intro g hg
    rw [decompileFuel_irrel g T.length T hg (Nat.le_refl _)]
    cases h : decompileFuel T.length T <;> simp [decompile, h, hcanon]
  unfold pushEncode
  split_ifs with h76 h255 h65535
  · -- direct length byte
    show decompileFuel (b.length :: (b ++ T)).length (b.length :: (b ++ T)) = _
    simp only [List.length_cons, decompileFuel]
    rw [if_pos (by omega)]
    have hread : readPush b.length (b ++ T) = some (b, T) := by
      unfold readPush
      rw [if_pos h76, if_neg hlenappend]
      rw [List.take_left, List.drop_left]
    rw [hread, Option.some_bind]
    exact hrec _ (by simp only [List.length_append]; omega)
  · -- OP_PUSHDATA1
    show decompileFuel (76 :: b.length :: (b ++ T)).length (76 :: b.length :: (b ++ T)) = _
    simp only [List.length_cons, decompileFuel]
    rw [if_pos (by omega)]
    have hread : readPush 76 (b.length :: (b ++ T)) = some (b, T) := by
      unfold readPush
      rw [if_neg (by omega), if_pos rfl]
      simp only
      rw [if_neg hlenappend]
      rw [List.take_left, List.drop_left]
    rw [hread, Option.some_bind]
    exact hrec _ (by simp only [List.length_append]; omega)
  · -- OP_PUSHDATA2
    show decompileFuel
        (77 :: b.length % 256 :: b.length / 256 :: (b ++ T)).length
        (77 :: b.length % 256 :: b.length / 256 :: (b ++ T)) = _
    simp only [List.length_cons, decompileFuel]
    rw [if_pos (by omega)]
    have hn : b.length % 256 + 256 * (b.length / 256) = b.length := Nat.mod_add_div _ _
    have hread : readPush 77 (b.length % 256 :: b.length / 256 :: (b ++ T)) = some (b, T) := by
      unfold readPush
      rw [if_neg (by omega), if_neg (by omega), if_pos rfl]
      simp only
      rw [hn]
      rw [if_neg hlenappend]
      rw [List.take_left, List.drop_left]
    rw [hread, Option.some_bind]
    exact hrec _ (by simp only [List.length_append]; omega)
  · -- OP_PUSHDATA4
    show decompileFuel
        (78 :: b.length % 256 :: b.length / 256 % 256 :: b.length / 65536 % 256 ::
          b.length / 16777216 % 256 :: (b ++ T)).length
        (78 :: b.length % 256 :: b.length / 256 % 256 :: b.length / 65536 % 256 ::
          b.length / 16777216 % 256 :: (b ++ T)) = _
    simp only [List.length_cons, decompileFuel]
    rw [if_pos (by omega)]
    have hn : b.length % 256 + 256 * (b.length / 256 % 256) + 65536 * (b.length / 65536 % 256)
        + 16777216 * (b.length / 16777216 % 256) = b.length := by omega
    have hread : readPush 78 (b.length % 256 :: b.length / 256 % 256 ::
        b.length / 65536 % 256 :: b.length / 16777216 % 256 :: (b ++ T)) = some (b, T) := by
      unfold readPush
      rw [if_neg (by omega), if_neg (by omega), if_neg (by omega)]
      simp only
      rw [hn]
      rw [if_neg hlenappend]
      rw [List.take_left, List.drop_left]
    rw [hread, Option.some_bind]
    exact hrec _ (by simp only [List.length_append]; omega)

theorem asMinimalOP_spec (b : List Nat) (m : Nat) (h : asMinimalOP b = some m) :
    m = 0 ∨ m = 79 ∨ (81 ≤ m ∧ m ≤ 96) := by
  match b with
  | [] => simp [asMinimalOP] at h; omega
  | [x] =>
    simp only [asMinimalOP] at h
    split_ifs at h with h1 h2 <;> simp at h <;> omega
  | x :: y :: t => simp [asMinimalOP] at h

theorem decompile_compile (chunks : List ScriptChunk)
    (h : ∀ c ∈ chunks, validChunk c = true) :
    decompile (compile chunks) = some (chunks.map canonicalize) := by
  induction chunks with
  | nil => rfl
  | cons c cs ih =>
    have hc : validChunk c = true := h c (List.mem_cons_self c cs)
    have hcs : ∀ x ∈ cs, validChunk x = true := fun x hx => h x (List.mem_cons_of_mem c hx)
    have ihcs := ih hcs
    cases c with
    | op code =>
      have hcode : code = 0 ∨ (79 ≤ code ∧ code ≤ 255) := by
        simp [validChunk] at hc
        omega
      show decompile ([code] ++ compile cs) = _
      rw [List.singleton_append, decompile_cons_op code (compile cs) (by omega), ihcs]
      rfl
    | buf b =>
      cases hm : asMinimalOP b with
      | some m =>
        have hspec := asMinimalOP_spec b m hm
        show decompile (compileChunk (.buf b) ++ compile cs) = _
        rw [show compileChunk (.buf b) = [m] by simp [compileChunk, hm]]
        rw [List.singleton_append, decompile_cons_op m (compile cs) (by omega), ihcs]
        simp [canonicalize, canonChunk, hm]
      | none =>
        have hlen : b.length < 4294967296 := by simpa [validChunk] using hc
        show decompile (compileChunk (.buf b) ++ compile cs) = _
        rw [show compileChunk (.buf b) = pushEncode b by simp [compileChunk, hm]]
        rw [decompile_push b (compile cs) hm hlen, ihcs]
        simp [canonicalize, canonChunk, hm]

theorem createOrdinal_decompile (p ct : List Nat)
    (hp : asMinimalOP p = none) (hct : asMinimalOP ct = none)
    (hlp : p.length < 4294967296) (hlct : ct.length < 4294967296) :
    decompile (createOrdinalInscription p ct)
      = some [.op 0, .op 99, .buf ordTag, .op 81, .buf ct, .buf [0], .buf p, .op 104] := by
  unfold createOrdinalInscription
  rw [decompile_compile]
  · have e1 : asMinimalOP ordTag = none := rfl
    have e2 : asMinimalOP [1] = some 81 := rfl
    have e3 : asMinimalOP [0] = none := rfl
    simp only [List.map_cons, List.map_nil, canonicalize, canonChunk, hp, hct, e1, e2, e3]
  · intro c hc
    simp only [List.mem_cons, List.not_mem_nil, or_false] at hc
    rcases hc with rfl | rfl | rfl | rfl | rfl | rfl | rfl | rfl
    · decide
    · decide
    · decide
    · decide
    · simp only [validChunk, decide_eq_true_eq]
      omega
    · decide
    · simp only [validChunk, decide_eq_true_eq]
      omega
    · decide

theorem createOrdinal_roundtrip (p ct : List Nat)
    (hp : asMinimalOP p = none) (hct : asMinimalOP ct = none)
    (hlp : p.length < 4294967296) (hlct : ct.length < 4294967296) :
    parseOrdinalInscription (createOrdinalInscription p ct) = .ok ⟨ordTag, none, ct, p⟩ := by
  unfold parseOrdinalInscription
  rw [createOrdinal_decompile p ct hp hct hlp hlct]
  simp [chunkToBytes, chunkFirstByte]
  rfl

theorem chunkDataFuel_nil (f : Nat) : chunkDataFuel f [] = [] := by
  cases f <;> rfl

theorem chunkDataFuel_irrel (f1 : Nat) : ∀ (f2 : Nat) (d : List Nat),
    d.length ≤ f1 → d.length ≤ f2 → chunkDataFuel f1 d = chunkDataFuel f2 d := by
  induction f1 with
  | zero =>
    intro f2 d h1 _
    have : d = [] := List.eq_nil_of_length_eq_zero (Nat.le_zero.mp h1)
    subst this
    simp [chunkDataFuel_nil]
  | succ g ih =>
    intro f2 d h1 h2
    cases d with
    | nil => simp [chunkDataFuel_nil]
    | cons a t =>
      cases f2 with
      | zero => simp at h2
      | succ g2 =>
        simp only [chunkDataFuel]
        have : chunkDataFuel g ((a :: t).drop 520) = chunkDataFuel g2 ((a :: t).drop 520) := by
          apply ih
          · simp only [List.length_drop, List.length_cons]
            simp only [List.length_cons] at h1
            omega
          · simp only [List.length_drop, List.length_cons]
            simp only [List.length_cons] at h2
            omega
        rw [this]

theorem chunkData_cons (d : List Nat) (hd : d ≠ []) :
    chunkData d = d.take 520 :: chunkData (d.drop 520) := by
  cases d with
  | nil => exact absurd rfl hd
  | cons a t =>
    show chunkDataFuel (t.length + 1) (a :: t) = _
    simp only [chunkDataFuel]
    rw [chunkDataFuel_irrel t.length ((a :: t).drop 520).length ((a :: t).drop 520)
      (by simp only [List.length_drop, List.length_cons]; omega) (Nat.le_refl _)]
    rfl

theorem chunkData_single (p : List Nat) (h1 : p ≠ []) (h2 : p.length ≤ 520) :
    chunkData p = [p] := by
  rw [chunkData_cons p h1]
  rw [List.take_of_length_le h2, List.drop_eq_nil_of_le h2]
  rfl

theorem large_eq_single (p ct : List Nat) (h1 : p ≠ []) (h2 : p.length ≤ 520) :
    createLargeOrdinalInscription p ct = createOrdinalInscription p ct := by
  unfold createLargeOrdinalInscription createOrdinalInscription
  rw [chunkData_single p h1 h2]
  rfl

theorem chunkData_sum_aux (n : Nat) : ∀ d : List Nat, d.length ≤ n →
    ((chunkData d).map List.length).sum = d.length := by
  induction n with
  | zero =>
    intro d h
    have : d = [] := List.eq_nil_of_length_eq_zero (Nat.le_zero.mp h)
    subst this
    rfl
  | succ m ih =>
    intro d h
    cases d with
    | nil => rfl
    | cons a t =>
      rw [chunkData_cons _ (by simp)]
      simp only [List.map_cons, List.sum_cons]
      rw [ih ((a :: t).drop 520)
        (by simp only [List.length_drop, List.length_cons]
            simp only [List.length_cons] at h
            omega)]
      simp only [List.length_take, List.length_drop, List.length_cons]
      omega

theorem chunkData_sum (d : List Nat) : ((chunkData d).map List.length).sum = d.length :=
  chunkData_sum_aux d.length d (Nat.le_refl _)

theorem chunkData_count_aux (n : Nat) : ∀ d : List Nat, d.length ≤ n →
    (chunkData d).length = (d.length + 519) / 520 := by
  induction n with
  | zero =>
    intro d h
    have : d = [] := List.eq_nil_of_length_eq_zero (Nat.le_zero.mp h)
    subst this
    rfl
  | succ m ih =>
    intro d h
    cases d with
    | nil => rfl
    | cons a t =>
      rw [chunkData_cons _ (by simp)]
      simp only [List.length_cons]
      rw [ih ((a :: t).drop 520)
        (by simp only [List.length_drop, List.length_cons]
            simp only [List.length_cons] at h
            omega)]
      simp only [List.length_drop, List.length_cons]
      omega

theorem chunkData_count (d : List Nat) : (chunkData d).length = (d.length + 519) / 520 :=
  chunkData_count_aux d.length d (Nat.le_refl _)

theorem chunkData_mem_le_aux (n : Nat) : ∀ (d c : List Nat), d.length ≤ n →
    c ∈ chunkData d → c.length ≤ 520 := by
  induction n with
  | zero =>
    intro d c h hc
    have : d = [] := List.eq_nil_of_length_eq_zero (Nat.le_zero.mp h)
    subst this
    simp [chunkData, chunkDataFuel_nil] at hc
  | succ m ih =>
    intro d c h hc
    cases d with
    | nil => simp [chunkData, chunkDataFuel_nil] at hc
    | cons a t =>
      rw [chunkData_cons _ (by simp)] at hc
      rcases List.mem_cons.mp hc with rfl | hmem
      · simp only [List.length_take]
        omega
      · exact ih ((a :: t).drop 520) c
          (by simp only [List.length_drop, List.length_cons]
              simp only [List.length_cons] at h
              omega) hmem

theorem chunkData_mem_le (d c : List Nat) (hc : c ∈ chunkData d) : c.length ≤ 520 :=
  chunkData_mem_le_aux d.length d c (Nat.le_refl _) hc

theorem compile_append (xs ys : List ScriptChunk) :
    compile (xs ++ ys) = compile xs ++ compile ys := by
  induction xs with
  | nil => rfl
  | cons c cs ih => simp [compile, ih]

theorem compileChunk_buf_le (b : List Nat) (hb : b.length ≤ 520) :
    (compileChunk (.buf b)).length ≤ 3 + b.length := by
  cases hm : asMinimalOP b with
  | some m =>
    have hc : compileChunk (.buf b) = [m] := by simp [compileChunk, hm]
    rw [hc]
    simp only [List.length_singleton]
    omega
  | none =>
    have hc : compileChunk (.buf b) = pushEncode b := by simp [compileChunk, hm]
    rw [hc]
    unfold pushEncode
    split_ifs <;> simp only [List.length_cons] <;> omega

theorem compileChunk_buf_small (b : List Nat) (hb : b.length < 76) :
    (compileChunk (.buf b)).length ≤ 1 + b.length := by
  cases hm : asMinimalOP b with
  | some m =>
    have hc : compileChunk (.buf b) = [m] := by simp [compileChunk, hm]
    rw [hc]
    simp only [List.length_singleton]
    omega
  | none =>
    have hc : compileChunk (.buf b) = pushEncode b := by simp [compileChunk, hm]
    rw [hc]
    unfold pushEncode
    rw [if_pos hb]
    simp only [List.length_cons]
    omega

theorem compile_map_buf_le (L : List (List Nat)) (h : ∀ c ∈ L, c.length ≤ 520) :
    (compile (L.map .buf)).length ≤ 3 * L.length + (L.map List.length).sum := by
  induction L with
  | nil => simp [compile]
  | cons c cs ih =>
    simp only [List.map_cons, compile, List.length_append, List.length_cons, List.sum_cons]
    have h1 := compileChunk_buf_le c (h c (List.mem_cons_self c cs))
    have h2 := ih fun x hx => h x (List.mem_cons_of_mem c hx)
    omega

/-- Fee charged by the builder for given inputs and heirs: twice the
estimated size, input count times 148 plus output count (heirs plus the
carrier) times 34 plus 10. -/
def feeOf (utxos : List UTXO) (heirAddresses : List String) : Nat :=
  (utxos.length * 148 + (heirAddresses.length + 1) * 34 + 10) * 2

theorem replicate_set_last {α : Type} (a b : α) (n : Nat) :
    (List.replicate (n + 1) a).set n b = List.replicate n a ++ [b] := by
  induction n with
  | zero => rfl
  | succ m ih =>
    rw [List.replicate_succ, List.set_cons_succ, ih]
    rfl

theorem build_ok_elim (utxos : List UTXO) (heirs : List String) (lt : Nat)
    (script : List Nat) (t : BuiltTransaction)
    (hok : buildTimeLockedTransaction utxos heirs lt script = .ok t) :
    (dustLimit : Int) ≤ valuePerHeirOf utxos heirs ∧
    t = ⟨lt, feeOf utxos heirs,
      utxos.map (fun u => ⟨u.txid, u.vout, 4294967294⟩),
      ⟨.script script, 0⟩ :: heirs.map (fun a => ⟨.addr a, valuePerHeirOf utxos heirs⟩),
      (List.replicate (heirs.length + 1) none).set heirs.length
        (some (valuePerHeirOf utxos heirs - (feeOf utxos heirs : Nat))),
      utxos.length, heirs.length + 1⟩ := by
  unfold buildTimeLockedTransaction at hok
  dsimp only at hok
  split_ifs at hok with hv
  all_goals first
  | exact Except.noConfusion hok
  | (constructor
     · omega
     · injection hok with h
       subst h
       simp [feeOf, List.length_map, List.length_cons, List.length_replicate,
         List.length_set])

theorem extractInscription_errors (cs : List ScriptChunk) :
    extractInscription cs ≠ .error .invalidScript
      ∧ extractInscription cs ≠ .error .notOrdinal := by
  have e1 : ∀ (e : InscriptionError) (f : List Nat → Except InscriptionError Inscription),
      (Except.error e >>= f) = Except.error e := fun _ _ => rfl
  have e2 : ∀ (x : List Nat) (f : List Nat → Except InscriptionError Inscription),
      (Except.ok x >>= f : Except InscriptionError Inscription) = f x := fun _ _ => rfl
  have e3 : ∀ x : Inscription,
      (pure x : Except InscriptionError Inscription) = Except.ok x := fun _ => rfl
  unfold extractInscription
  generalize cs.getD 2 (ScriptChunk.op 0) = c2
  generalize cs.getD 4 (ScriptChunk.op 0) = c4
  generalize cs.getD 6 (ScriptChunk.op 0) = c6
  cases c2 <;> cases c4 <;> cases c6 <;>
    simp [chunkToBytes, e1, e2, e3]

/-- C1: the claim that a successful buildTimeLockedTransaction conserves
value, sum of output values plus the reported fee equal to the sum of the
spendable input values, fails on the code: with one spendable output of
10000 satoshis, one heir and a 1 byte carrier script, the build succeeds
with serialized outputs summing to 9000 and a reported fee of 452, so
outputs plus reported fee is 9452, not 10000; the provisional 1000 satoshi
fee withheld by the split is the actual amount left to the miner, the fee
subtraction being a dead store into BIP-174 metadata, so the reported fee
of 452 matches neither the claim nor the 1000 satoshis really paid. -/
theorem c1_value_conservation_fails :
    (buildTimeLockedTransaction [⟨[171], 0, 10000⟩] ["heir"] 800000 [106]).map
        (fun t => ((t.outputs.map TxOutput.value).sum, t.fee)) = .ok (9000, 452)
    ∧ totalInputValue [⟨[171], 0, 10000⟩] = 10000
    ∧ (9000 : Int) + 452 ≠ 10000 := by
  refine ⟨by decide, by decide, by decide⟩

/-- C2 counterexample: the round trip fails beyond one chunk and on the
minimal push edge cases: a 521 byte payload encoded by the multi chunk
builder decodes to its first 520 bytes only, because the parser reads the
data from decompiled chunk 6 alone; a single byte payload in the opcode
range 1..16 and an empty content type both make decoding fail with the
RangeError of calling toString on an opcode. -/
theorem c2_roundtrip_counterexample :
    (parseOrdinalInscription
        (createLargeOrdinalInscription (List.replicate 521 97) defaultContentType)).map
        Inscription.data = .ok (List.replicate 520 97)
    ∧ List.replicate 520 97 ≠ List.replicate 521 97
    ∧ parseOrdinalInscription (createOrdinalInscription [3] defaultContentType)
        = .error .typeError
    ∧ parseOrdinalInscription (createOrdinalInscription [104, 105] [])
        = .error .typeError := by
  refine ⟨by decide, by decide, by decide, by decide⟩

/-- C2 (amended): for payloads of 1 to 520 bytes the round trip holds
whenever neither the payload nor the content type is canonicalized to a
single opcode by the script compiler (empty, or one byte in 1..16 or 0x81):
decoding the encoded script returns exactly the payload and the content
type, and the multi chunk builder produces the same script as the single
push builder on this range. -/
theorem c2_roundtrip_single_chunk (p ct : List Nat) (h1 : 1 ≤ p.length)
    (h2 : p.length ≤ 520) (hp : asMinimalOP p = none) (hct : asMinimalOP ct = none)
    (hlct : ct.length < 4294967296) :
    parseOrdinalInscription (createLargeOrdinalInscription p ct)
      = .ok ⟨ordTag, none, ct, p⟩
    ∧ createLargeOrdinalInscription p ct = createOrdinalInscription p ct := by
  have hne : p ≠ [] := by
    intro h
    rw [h] at h1
    simp at h1
  have heq := large_eq_single p ct hne h2
  refine ⟨?_, heq⟩
  rw [heq]
  exact createOrdinal_roundtrip p ct hp hct (by omega) hlct

theorem c2_roundtrip_single_chunk_witness :
    (1 ≤ ([104, 105] : List Nat).length ∧ ([104, 105] : List Nat).length ≤ 520
      ∧ asMinimalOP [104, 105] = none ∧ asMinimalOP defaultContentType = none
      ∧ defaultContentType.length < 4294967296)
    ∧ (parseOrdinalInscription (createLargeOrdinalInscription [104, 105] defaultContentType)
        = .ok ⟨ordTag, none, defaultContentType, [104, 105]⟩
      ∧ createLargeOrdinalInscription [104, 105] defaultContentType
        = createOrdinalInscription [104, 105] defaultContentType) :=
  ⟨⟨by decide, by decide, by decide, by decide, by decide⟩,
    c2_roundtrip_single_chunk [104, 105] defaultContentType (by decide) (by decide)
      (by decide) (by decide) (by decide)⟩

/-- C3: in every transaction skeleton returned by a successful build every
payout output carries the per heir value, which the dust check bounds
below by 546 satoshis, and whenever the per heir split falls below 546
satoshis the build fails with the insufficient funds error instead of
returning a skeleton; the closing fee assignment targets the BIP-174
metadata records and leaves the serialized payout outputs untouched, so
the dust floor of the claim holds. -/
theorem c3_dust_floor (utxos : List UTXO) (heirs : List String) (lt : Nat)
    (script : List Nat) (hne : heirs ≠ []) :
    (∀ t, buildTimeLockedTransaction utxos heirs lt script = .ok t →
      ∀ o ∈ t.outputs.tail, (546 : Int) ≤ o.value)
    ∧ (valuePerHeirOf utxos heirs < 546 →
      buildTimeLockedTransaction utxos heirs lt script
        = .error (.insufficientFunds (546 * heirs.length + 1000))) := by
  constructor
  · intro t hok o ho
    obtain ⟨hd, rfl⟩ := build_ok_elim utxos heirs lt script t hok
    simp only [List.tail_cons] at ho
    obtain ⟨a, ha, rfl⟩ := List.mem_map.mp ho
    simpa [dustLimit] using hd
  · intro hlt
    unfold buildTimeLockedTransaction
    dsimp only
    rw [if_pos (show valuePerHeirOf utxos heirs < ((dustLimit : Nat) : Int) from hlt)]
    rw [show dustLimit = 546 from rfl]

theorem c3_dust_floor_witness :
    ((["heir"] : List String) ≠ []
      ∧ buildTimeLockedTransaction [⟨[171], 0, 1596⟩] ["heir"] 800000 [106]
        = .ok ⟨800000, 452, [⟨[171], 0, 4294967294⟩],
            [⟨.script [106], 0⟩, ⟨.addr "heir", 596⟩], [none, some 144], 1, 2⟩
      ∧ ⟨OutputDest.addr "heir", 596⟩ ∈ (⟨800000, 452, [⟨[171], 0, 4294967294⟩],
            [⟨.script [106], 0⟩, ⟨.addr "heir", 596⟩], [none, some 144], 1, 2⟩
            : BuiltTransaction).outputs.tail
      ∧ (546 : Int) ≤ (⟨OutputDest.addr "heir", 596⟩ : TxOutput).value)
    ∧ (valuePerHeirOf [⟨[171], 0, 1400⟩] ["heir"] < 546
      ∧ buildTimeLockedTransaction [⟨[171], 0, 1400⟩] ["heir"] 800000 [106]
        = .error (.insufficientFunds (546 * (["heir"] : List String).length + 1000))) :=
  ⟨⟨by decide, by decide, by decide,
      (c3_dust_floor [⟨[171], 0, 1596⟩] ["heir"] 800000 [106] (by decide)).1
        ⟨800000, 452, [⟨[171], 0, 4294967294⟩],
          [⟨.script [106], 0⟩, ⟨.addr "heir", 596⟩], [none, some 144], 1, 2⟩
        (by decide) ⟨.addr "heir", 596⟩ (by decide)⟩,
    ⟨by decide,
      (c3_dust_floor [⟨[171], 0, 1400⟩] ["heir"] 800000 [106] (by decide)).2 (by decide)⟩⟩

/-- C4 counterexample: with one spendable output of 10000 satoshis and
three heirs the build succeeds with fee 588, so the distributable amount
of the claim is 9412, the claimed first outputs floor(9412 / 3) = 3137 and
the claimed last output 9412 - 2 * 3137 = 3138; the serialized transaction
instead pays 3000 to every heir: the split uses the provisional 1000
satoshi fee, not the reported fee, the remainder is dropped, and the fee
subtraction from the last output is a dead store into BIP-174 metadata. -/
theorem c4_remainder_counterexample :
    (buildTimeLockedTransaction [⟨[171], 0, 10000⟩] ["h1", "h2", "h3"] 800000 [106]).map
        (fun t => (t.outputs.map TxOutput.value, t.fee)) = .ok ([0, 3000, 3000, 3000], 588)
    ∧ (3000 : Int) ≠ Int.fdiv (10000 - 588) 3
    ∧ (3000 : Int) ≠ (10000 - 588) - 2 * Int.fdiv (10000 - 588) 3 := by
  refine ⟨by decide, by decide, by decide⟩

/-- C4 (amended): in every successful build the serialized output values
are the carrier 0 followed by floor((totalInput - 1000) / N) for every
heir, the last included; the division remainder is assigned to no output
and the reported fee is subtracted from no output: the closing assignment
of valuePerHeir minus fee lands in the value field of the last BIP-174
metadata record, a dead store that never reaches the returned
transaction. -/
theorem c4_payout_split (utxos : List UTXO) (heirs : List String) (lt : Nat)
    (script : List Nat) (t : BuiltTransaction) (hne : heirs ≠ [])
    (hok : buildTimeLockedTransaction utxos heirs lt script = .ok t) :
    t.outputs.map TxOutput.value
      = 0 :: List.replicate heirs.length (valuePerHeirOf utxos heirs)
    ∧ t.outputsMeta
      = List.replicate heirs.length none
          ++ [some (valuePerHeirOf utxos heirs - (feeOf utxos heirs : Nat))] := by
  obtain ⟨hd, rfl⟩ := build_ok_elim utxos heirs lt script t hok
  have hmap : ∀ (l : List String) (w : Int),
      (l.map fun a => TxOutput.mk (.addr a) w).map TxOutput.value
        = List.replicate l.length w := by
    intro l w
    induction l with
    | nil => rfl
    | cons a r ih => simp [ih, List.replicate_succ]
  constructor
  · simp only [List.map_cons]
    rw [hmap]
  · exact replicate_set_last none _ heirs.length

theorem c4_payout_split_witness :
    ((["h1", "h2", "h3"] : List String) ≠ []
      ∧ buildTimeLockedTransaction [⟨[171], 0, 10000⟩] ["h1", "h2", "h3"] 800000 [106]
        = .ok ⟨800000, 588, [⟨[171], 0, 4294967294⟩],
            [⟨.script [106], 0⟩, ⟨.addr "h1", 3000⟩, ⟨.addr "h2", 3000⟩, ⟨.addr "h3", 3000⟩],
            [none, none, none, some 2412], 1, 4⟩)
    ∧ ((⟨800000, 588, [⟨[171], 0, 4294967294⟩],
          [⟨.script [106], 0⟩, ⟨.addr "h1", 3000⟩, ⟨.addr "h2", 3000⟩, ⟨.addr "h3", 3000⟩],
          [none, none, none, some 2412], 1, 4⟩ : BuiltTransaction).outputs.map TxOutput.value
      = 0 :: List.replicate (["h1", "h2", "h3"] : List String).length
          (valuePerHeirOf [⟨[171], 0, 10000⟩] ["h1", "h2", "h3"])
    ∧ (⟨800000, 588, [⟨[171], 0, 4294967294⟩],
          [⟨.script [106], 0⟩, ⟨.addr "h1", 3000⟩, ⟨.addr "h2", 3000⟩, ⟨.addr "h3", 3000⟩],
          [none, none, none, some 2412], 1, 4⟩ : BuiltTransaction).outputsMeta
      = List.replicate (["h1", "h2", "h3"] : List String).length none
          ++ [some (valuePerHeirOf [⟨[171], 0, 10000⟩] ["h1", "h2", "h3"]
              - (feeOf [⟨[171], 0, 10000⟩] ["h1", "h2", "h3"] : Nat))]) :=
  ⟨⟨by decide, by decide⟩,
    c4_payout_split [⟨[171], 0, 10000⟩] ["h1", "h2", "h3"] 800000 [106]
      ⟨800000, 588, [⟨[171], 0, 4294967294⟩],
        [⟨.script [106], 0⟩, ⟨.addr "h1", 3000⟩, ⟨.addr "h2", 3000⟩, ⟨.addr "h3", 3000⟩],
        [none, none, none, some 2412], 1, 4⟩
      (by decide) (by decide)⟩

/-- C5 counterexample: the fee charged is independent of the carrier
script length, a 41 byte and a 141 byte script both give fee 452 for one
input and one heir, while the claimed formula 148 per input plus 34 per
output plus 10 plus the script length, times the rate 2, gives 534; the
build request carries no fee rate at all and the code multiplies by a
constant 2. -/
theorem c5_fee_counterexample :
    (buildTimeLockedTransaction [⟨[171], 0, 100000⟩] ["heir"] 800000
        (List.replicate 41 0)).map BuiltTransaction.fee = .ok 452
    ∧ (buildTimeLockedTransaction [⟨[171], 0, 100000⟩] ["heir"] 800000
        (List.replicate 141 0)).map BuiltTransaction.fee = .ok 452
    ∧ (452 : Nat) ≠ (1 * 148 + 2 * 34 + 10 + 41) * 2 := by
  refine ⟨by decide, by decide, by decide⟩

/-- C5 (amended): in every successful build the fee equals the estimated
size, 148 per input plus 34 per output counting the carrier plus a fixed
10, multiplied by the constant rate 2; the carrier script byte length does
not enter and no request fee rate exists. -/
theorem c5_fee_formula (utxos : List UTXO) (heirs : List String) (lt : Nat)
    (script : List Nat) (t : BuiltTransaction)
    (hok : buildTimeLockedTransaction utxos heirs lt script = .ok t) :
    t.fee = (utxos.length * 148 + (heirs.length + 1) * 34 + 10) * 2 := by
  obtain ⟨hd, rfl⟩ := build_ok_elim utxos heirs lt script t hok
  rfl

theorem c5_fee_formula_witness :
    buildTimeLockedTransaction [⟨[171], 0, 10000⟩] ["heir"] 800000 [106]
      = .ok ⟨800000, 452, [⟨[171], 0, 4294967294⟩],
          [⟨.script [106], 0⟩, ⟨.addr "heir", 9000⟩], [none, some 8548], 1, 2⟩
    ∧ (⟨800000, 452, [⟨[171], 0, 4294967294⟩],
          [⟨.script [106], 0⟩, ⟨.addr "heir", 9000⟩], [none, some 8548], 1, 2⟩
          : BuiltTransaction).fee
      = (([⟨[171], 0, 10000⟩] : List UTXO).length * 148
          + ((["heir"] : List String).length + 1) * 34 + 10) * 2 :=
  ⟨by decide,
    c5_fee_formula [⟨[171], 0, 10000⟩] ["heir"] 800000 [106]
      ⟨800000, 452, [⟨[171], 0, 4294967294⟩],
        [⟨.script [106], 0⟩, ⟨.addr "heir", 9000⟩], [none, some 8548], 1, 2⟩
      (by decide)⟩

/-- C6: every input of every transaction skeleton produced by a successful
buildTimeLockedTransaction carries the sequence number 0xfffffffe, which is
strictly less than the maximum representable value 0xffffffff, so the
locktime stays enforceable. -/
theorem c6_nonfinal_sequence (utxos : List UTXO) (heirs : List String) (lt : Nat)
    (script : List Nat) (t : BuiltTransaction)
    (hok : buildTimeLockedTransaction utxos heirs lt script = .ok t) :
    ∀ inp ∈ t.inputs, inp.sequence = 4294967294 ∧ inp.sequence < 4294967295 := by
  obtain ⟨hd, rfl⟩ := build_ok_elim utxos heirs lt script t hok
  intro inp hinp
  simp only at hinp
  obtain ⟨u, hu, rfl⟩ := List.mem_map.mp hinp
  refine ⟨rfl, ?_⟩
  show (4294967294 : Nat) < 4294967295
  omega

theorem c6_nonfinal_sequence_witness :
    buildTimeLockedTransaction [⟨[171], 0, 10000⟩] ["heir"] 800000 [106]
      = .ok ⟨800000, 452, [⟨[171], 0, 4294967294⟩],
          [⟨.script [106], 0⟩, ⟨.addr "heir", 9000⟩], [none, some 8548], 1, 2⟩
    ∧ ((⟨[171], 0, 4294967294⟩ : TxInput).sequence = 4294967294
      ∧ (⟨[171], 0, 4294967294⟩ : TxInput).sequence < 4294967295) :=
  ⟨by decide,
    c6_nonfinal_sequence [⟨[171], 0, 10000⟩] ["heir"] 800000 [106]
      ⟨800000, 452, [⟨[171], 0, 4294967294⟩],
        [⟨.script [106], 0⟩, ⟨.addr "heir", 9000⟩], [none, some 8548], 1, 2⟩ (by decide)
      ⟨[171], 0, 4294967294⟩ (by decide)⟩

/-- C7 counterexample: estimateInscriptionSize is not in lock step with the
script the encoder produces: for the 5 byte payload hello and the default
content type the estimate is 44 while the compiled script is 41 bytes (the
estimate books two bytes for the version push that compiles to the single
opcode OP_1, and three opcode bytes for a data chunk whose push header is
one byte). -/
theorem c7_estimate_counterexample :
    estimateInscriptionSize [104, 101, 108, 108, 111] defaultContentType = 44
    ∧ (createLargeOrdinalInscription [104, 101, 108, 108, 111] defaultContentType).length = 41
    ∧ (44 : Nat) ≠ 41 := by
  refine ⟨by decide, by decide, by decide⟩

/-- C7 (amended): estimateInscriptionSize is an upper bound, not an exact
prediction: for every payload and every content type shorter than 76 bytes
the compiled script of the chunked encoder is at most the estimate. -/
theorem c7_estimate_upper_bound (data ct : List Nat) (h : ct.length < 76) :
    (createLargeOrdinalInscription data ct).length ≤ estimateInscriptionSize data ct := by
  unfold createLargeOrdinalInscription estimateInscriptionSize
  rw [compile_append, compile_append]
  simp only [List.length_append]
  have hpre : (compile [ScriptChunk.op 0, .op 99, .buf ordTag, .buf [1], .buf ct, .buf [0]]).length
      ≤ 9 + (1 + ct.length) := by
    show (compile ([ScriptChunk.op 0, .op 99, .buf ordTag, .buf [1]]
      ++ ([.buf ct] ++ [.buf [0]]))).length ≤ _
    rw [compile_append, compile_append]
    simp only [List.length_append]
    have h1 : (compile [ScriptChunk.op 0, .op 99, .buf ordTag, .buf [1]]).length = 7 := by decide
    have h2 : (compile [ScriptChunk.buf ct]).length ≤ 1 + ct.length := by
      show (compileChunk (.buf ct) ++ compile []).length ≤ _
      simp only [compile, List.append_nil]
      exact compileChunk_buf_small ct h
    have h3 : (compile [ScriptChunk.buf [0]]).length = 2 := by decide
    omega
  have hmid := compile_map_buf_le (chunkData data) (fun c hc => chunkData_mem_le data c hc)
  have hcount := chunkData_count data
  have hsum := chunkData_sum data
  have hend : (compile [ScriptChunk.op 104]).length = 1 := by decide
  rw [hcount, hsum] at hmid
  omega

theorem c7_estimate_upper_bound_witness :
    defaultContentType.length < 76
    ∧ (createLargeOrdinalInscription [104, 101, 108, 108, 111] defaultContentType).length
      ≤ estimateInscriptionSize [104, 101, 108, 108, 111] defaultContentType :=
  ⟨by decide, c7_estimate_upper_bound [104, 101, 108, 108, 111] defaultContentType (by decide)⟩

/-- C8 counterexample: createOrdinalInscription does not fail on a payload
of 10241 bytes, one over the 10 KiB ceiling: it returns a complete script
that even decodes back to the full payload; the encoder contains no size
check at all. -/
theorem c8_oversized_payload_encodes :
    parseOrdinalInscription
        (createOrdinalInscription (List.replicate 10241 97) defaultContentType)
      = .ok ⟨ordTag, none, defaultContentType, List.replicate 10241 97⟩
    ∧ (List.replicate 10241 (97 : Nat)).length > 10240 :=
  ⟨createOrdinal_roundtrip (List.replicate 10241 97) defaultContentType
      (by decide) (by decide) (by rw [List.length_replicate]; omega) (by decide),
    by rw [List.length_replicate]; omega⟩

/-- C8 (amended): the 10 KiB ceiling lives only in validateInscriptionData,
which is not called by the encoder: its isValid flag holds exactly for
payloads of 1 to 10240 bytes and its dataTooLarge error is reported exactly
above 10240 bytes, while createOrdinalInscription succeeds on any payload
length. -/
theorem c8_ceiling_only_in_validator (data : List Nat) :
    ((validateInscriptionData data).isValid = true
      ↔ 1 ≤ data.length ∧ data.length ≤ 10240)
    ∧ (ValidationError.dataTooLarge ∈ (validateInscriptionData data).errors
      ↔ data.length > 10240) := by
  unfold validateInscriptionData
  dsimp only
  constructor
  · split_ifs <;> simp <;> omega
  · split_ifs <;> simp <;> omega

/-- C9 counterexample: a script carrying the OP_FALSE OP_IF marker pair but
the mismatched protocol tag xyz instead of ord is decoded successfully, the
wrong tag returned as the protocol field; no NotACarrierScript failure
occurs on a mismatched tag. -/
theorem c9_protocol_tag_unchecked :
    (parseOrdinalInscription (compile [.op 0, .op 99, .buf [120, 121, 122], .buf [1],
        .buf defaultContentType, .buf [0], .buf [104, 105], .op 104])).map
        Inscription.protocol = .ok [120, 121, 122]
    ∧ [120, 121, 122] ≠ ordTag := by
  refine ⟨by decide, by decide⟩

/-- C9 (amended): parseOrdinalInscription fails with the invalid script
error exactly when the script does not decompile or yields fewer than 7
operations, and with the not an Ordinal inscription error exactly when it
yields at least 7 operations whose first two are not OP_FALSE OP_IF; the
protocol tag is never compared, so a mismatched tag causes no failure. -/
theorem c9_error_taxonomy (s : List Nat) :
    (parseOrdinalInscription s = .error .invalidScript
      ↔ decompile s = none ∨ ∃ cs, decompile s = some cs ∧ cs.length < 7)
    ∧ (parseOrdinalInscription s = .error .notOrdinal
      ↔ ∃ cs, decompile s = some cs ∧ ¬ cs.length < 7
          ∧ (cs.get? 0 ≠ some (.op 0) ∨ cs.get? 1 ≠ some (.op 99))) := by
  cases hd : decompile s with
  | none => simp [parseOrdinalInscription, hd]
  | some cs =>
    simp only [parseOrdinalInscription, hd]
    by_cases h7 : cs.length < 7
    · simp [h7]
    · rw [if_neg h7]
      by_cases hm : cs.get? 0 ≠ some (.op 0) ∨ cs.get? 1 ≠ some (.op 99)
      · rw [if_pos hm]
        simp only [h7]
        constructor
        · simp [h7]
        · simp only [Except.error.injEq, true_iff, iff_true]
          refine ⟨cs, rfl, h7, ?_⟩
          simpa using hm
      · rw [if_neg hm]
        have hx := extractInscription_errors cs
        constructor
        · simp [h7, hx.1]
        · simp only [hx.2, false_iff]
          push_neg at hm
          intro ⟨cs2, hcs2, hlen2, hor⟩
          rw [Option.some.injEq] at hcs2
          subst hcs2
          rcases hor with h | h
          · exact h (by simpa using hm.1)
          · exact h (by simpa using hm.2)

/-- C10 counterexample: a locktimeValue of 400000, squarely in the block
height range below 500000000, is rejected by the create vault handler when
the server clock reads 1700000000, and accepted when the clock reads
399999: the handler validates every value against the UNIX clock and never
consults the 500000000 boundary or any block height. -/
theorem c10_height_treated_as_timestamp :
    vaultCreateValidation [1, 2, 3] ["heir"] 400000 "tb1q" 1700000000
      = some .lockTimeNotInFuture
    ∧ (400000 : Nat) < 500000000
    ∧ vaultCreateValidation [1, 2, 3] ["heir"] 400000 "tb1q" 399999 = none := by
  refine ⟨by decide, by decide, by decide⟩

/-- C10 (amended): with the required fields present and 1 to 3 heir
addresses, the create vault handler rejects the request as a locktime
failure exactly when the locktimeValue is at most the current UNIX clock,
for every value on either side of the 500000000 boundary alike. -/
theorem c10_clock_only_validation (data : List Nat) (heirs : List String)
    (lockT : Nat) (addr : String) (now : Nat) (h1 : data ≠ []) (h2 : lockT ≠ 0)
    (h3 : addr ≠ "") (h4 : 1 ≤ heirs.length) (h5 : heirs.length ≤ 3) :
    vaultCreateValidation data heirs lockT addr now = some .lockTimeNotInFuture
      ↔ lockT ≤ now := by
  unfold vaultCreateValidation
  split_ifs with ha hb hc
  · exfalso
    rcases ha with h | h | h
    · exact h1 (List.length_eq_zero.mp h)
    · exact h2 h
    · exact h3 h
  · exfalso
    omega
  · simp [hc]
  · simp [hc]

theorem c10_clock_only_validation_witness :
    (([1] : List Nat) ≠ [] ∧ (1700000001 : Nat) ≠ 0 ∧ ("tb1q" : String) ≠ ""
      ∧ 1 ≤ (["heir"] : List String).length ∧ (["heir"] : List String).length ≤ 3)
    ∧ (vaultCreateValidation [1] ["heir"] 1700000001 "tb1q" 1700000000
        = some .lockTimeNotInFuture ↔ (1700000001 : Nat) ≤ 1700000000) :=
  ⟨⟨by decide, by decide, by decide, by decide, by decide⟩,
    c10_clock_only_validation [1] ["heir"] 1700000001 "tb1q" 1700000000
      (by decide) (by decide) (by decide) (by decide) (by decide)⟩

end DigitalWill
